import Mathlib

/-!
Verification development for an OCR batch-processing agent.

The development embeds the persistent task queue (`queue_store.py`), the
processing loop of the `run` command (`cli.py`), and the Markdown
merge/post-processing pipeline (`markdown_merge.py`) as executable Lean
definitions, and proves the behavioural properties stated about them.

The SQLite table of tasks is modelled as a list of rows together with the
`AUTOINCREMENT` counter; SQL queries that sort by `task_id` are modelled by an
explicit insertion sort on the row list.  The filesystem read by the merge step
is modelled as a partial map from paths to file contents.
-/

/-! ## Task data model (queue_store.py) -/

/-- Status column values: `pending`, `running`, `completed`, `failed`. -/
inductive TaskStatus where
  | pending
  | running
  | completed
  | failed
deriving DecidableEq, Repr

/-- Kind column values: `image`, `pdf_page`. -/
inductive TaskKind where
  | image
  | pdfPage
deriving DecidableEq, Repr

/-- One row of the `tasks` table (`QueueTask` dataclass). -/
structure QueueTask where
  task_id : Nat
  task_kind : TaskKind
  source_path : String
  pdf_page_index : Option Int
  pdf_total_pages : Option Int
  created_unix_timestamp_seconds : Int
  status : TaskStatus
  output_markdown_path : Option String
  error_message : Option String
deriving DecidableEq, Repr

/-- The persistent store: the list of table rows in insertion order together
with the next `AUTOINCREMENT` id.  SQLite's `AUTOINCREMENT` never re-uses ids,
also after `DELETE FROM tasks`, so `next_id` survives `delete_all_tasks`. -/
structure Store where
  rows : List QueueTask
  next_id : Nat
deriving DecidableEq, Repr

/-- A freshly initialized store: empty table, first id is 1. -/
def emptyStore : Store := { rows := [], next_id := 1 }

/-- Row inserted by `enqueue_image_tasks` for one image path. -/
def mkImageRow (id : Nat) (path : String) (ts : Int) : QueueTask :=
  { task_id := id
    task_kind := .image
    source_path := path
    pdf_page_index := none
    pdf_total_pages := none
    created_unix_timestamp_seconds := ts
    status := .pending
    output_markdown_path := none
    error_message := none }

/-- Rows inserted by the insertion loop of `enqueue_image_tasks`, with ids
assigned consecutively starting at `id`. -/
def enqueueImageRows (id : Nat) (paths : List String) (ts : Int) : List QueueTask :=
  match paths with
  | [] => []
  | p :: ps => mkImageRow id p ts :: enqueueImageRows (id + 1) ps ts

/-- `enqueue_image_tasks`: one Pending/Image row per path, in the given order;
returns the updated store and the number of rows inserted. -/
def enqueue_image_tasks (s : Store) (paths : List String) (ts : Int) : Store × Nat :=
  ({ rows := s.rows ++ enqueueImageRows s.next_id paths ts
     next_id := s.next_id + paths.length },
   paths.length)

/-- Row inserted by `enqueue_pdf_page_tasks` for page index `k`. -/
def mkPdfPageRow (id : Nat) (path : String) (k : Nat) (total : Int) (ts : Int) : QueueTask :=
  { task_id := id
    task_kind := .pdfPage
    source_path := path
    pdf_page_index := some (Int.ofNat k)
    pdf_total_pages := some total
    created_unix_timestamp_seconds := ts
    status := .pending
    output_markdown_path := none
    error_message := none }

/-- `enqueue_pdf_page_tasks`: if `total ≤ 0` the call inserts nothing and
returns 0; otherwise it inserts one Pending/PdfPage row per page index in
`range(total)`, all with the same `created_at`, and returns the count. -/
def enqueue_pdf_page_tasks (s : Store) (path : String) (total : Int) (ts : Int) : Store × Nat :=
  if total ≤ 0 then (s, 0)
  else
    ({ rows := s.rows ++
         (List.range total.toNat).map (fun k => mkPdfPageRow (s.next_id + k) path k total ts)
       next_id := s.next_id + total.toNat },
     total.toNat)

/-- Insert a row into a list kept sorted by ascending `task_id`. -/
def insertByTaskId (t : QueueTask) : List QueueTask → List QueueTask
  | [] => [t]
  | u :: us => if t.task_id ≤ u.task_id then t :: u :: us else u :: insertByTaskId t us

/-- Sort rows by ascending `task_id` (the `ORDER BY task_id ASC` of the SQL
queries). -/
def sortByTaskId : List QueueTask → List QueueTask
  | [] => []
  | t :: ts => insertByTaskId t (sortByTaskId ts)

/-- `fetch_next_pending_task`: `WHERE status = pending ORDER BY task_id ASC
LIMIT 1`. -/
def fetch_next_pending_task (s : Store) : Option QueueTask :=
  (sortByTaskId (s.rows.filter (fun r => decide (r.status = .pending)))).head?

/-- Semantics of `UPDATE tasks SET ... WHERE task_id = ?`: apply `upd` to the
rows whose id matches, leave every other row unchanged. -/
def updateRowsById (upd : QueueTask → QueueTask) (id : Nat)
    (rows : List QueueTask) : List QueueTask :=
  rows.map (fun r => if r.task_id = id then upd r else r)

/-- `mark_task_running`: `UPDATE tasks SET status = running WHERE task_id = ?`. -/
def mark_task_running (s : Store) (id : Nat) : Store :=
  { s with rows := updateRowsById (fun r => { r with status := .running }) id s.rows }

/-- `mark_task_completed`: sets status, output path, and clears the error. -/
def mark_task_completed (s : Store) (id : Nat) (output_path : String) : Store :=
  { s with rows := updateRowsById (fun r =>
      { r with status := .completed
               output_markdown_path := some output_path
               error_message := none }) id s.rows }

/-- `mark_task_failed`: sets status and the error message.  Note that the SQL
statement updates only `status` and `error_message`; `output_markdown_path`
is left untouched. -/
def mark_task_failed (s : Store) (id : Nat) (error : String) : Store :=
  { s with rows := updateRowsById (fun r =>
      { r with status := .failed
               error_message := some error }) id s.rows }

/-- `fetch_tasks_in_enqueue_order`: `SELECT ... ORDER BY task_id ASC`. -/
def fetch_tasks_in_enqueue_order (s : Store) : List QueueTask :=
  sortByTaskId s.rows

/-- `delete_all_tasks`: `DELETE FROM tasks`, returning the deleted row count.
The `AUTOINCREMENT` sequence is not reset. -/
def delete_all_tasks (s : Store) : Store × Nat :=
  ({ s with rows := [] }, s.rows.length)

/-! ## Queue operations as a closed alphabet, for statements quantifying over
arbitrary sequences of store mutations. -/

/-- One call to a mutating operation of the queue API. -/
inductive QueueOp where
  | enqueueImages : List String → Int → QueueOp
  | enqueuePdfPages : String → Int → Int → QueueOp
  | markRunning : Nat → QueueOp
  | markCompleted : Nat → String → QueueOp
  | markFailed : Nat → String → QueueOp
  | deleteAll : QueueOp
deriving DecidableEq, Repr

/-- Apply one queue operation to the store. -/
def applyOp (s : Store) : QueueOp → Store
  | .enqueueImages ps ts => (enqueue_image_tasks s ps ts).1
  | .enqueuePdfPages p total ts => (enqueue_pdf_page_tasks s p total ts).1
  | .markRunning id => mark_task_running s id
  | .markCompleted id p => mark_task_completed s id p
  | .markFailed id e => mark_task_failed s id e
  | .deleteAll => (delete_all_tasks s).1

/-- Apply a sequence of queue operations from left to right. -/
def applyOps (s : Store) (ops : List QueueOp) : Store :=
  ops.foldl applyOp s

/-- Store well-formedness: rows are listed in strictly increasing `task_id`
order and every id is below the `AUTOINCREMENT` counter.  This holds for every
store reachable from `emptyStore`. -/
def StoreWF (s : Store) : Prop :=
  s.rows.Pairwise (fun a b => a.task_id < b.task_id) ∧
  ∀ r ∈ s.rows, r.task_id < s.next_id

/-! ## Markdown merge and math-delimiter transform (markdown_merge.py) -/

/-- Whitespace characters as recognized by Python's `str.strip()` and the
regex class `\s` (ASCII range). -/
def isPyWhitespace (c : Char) : Bool :=
  c == ' ' || c == '\t' || c == '\n' || c == '\r' || c == '\x0b' || c == '\x0c'

/-- Python `str.strip()`: drop whitespace from both ends. -/
def pyStripChars (cs : List Char) : List Char :=
  ((cs.dropWhile isPyWhitespace).reverse.dropWhile isPyWhitespace).reverse

/-- Python `str.strip()` on strings. -/
def pyStripString (s : String) : String :=
  String.mk (pyStripChars s.data)

/-- Python `str.rstrip()`: drop whitespace from the right end. -/
def pyRStripString (s : String) : String :=
  String.mk (s.data.reverse.dropWhile isPyWhitespace).reverse

/-- Python `content.strip("\n")`: drop newlines from both ends. -/
def stripNewlineEnds (cs : List Char) : List Char :=
  ((cs.dropWhile (fun c => c == '\n')).reverse.dropWhile (fun c => c == '\n')).reverse

/-- Split at the first occurrence of `pat`: returns the part before the match
and the part after it, or `none` when `pat` does not occur. -/
def splitFirst (pat : List Char) : List Char → Option (List Char × List Char)
  | [] => if pat.isEmpty then some ([], []) else none
  | c :: rest =>
    if pat.isPrefixOf (c :: rest) then some ([], (c :: rest).drop pat.length)
    else
      match splitFirst pat rest with
      | none => none
      | some (pre, post) => some (c :: pre, post)

/-- Fuelled worker for `subLazySpans`.  At each position: if the text starts
with `openP`, take the shortest non-empty content followed by `closeP`
(the semantics of a lazy `(.+?)` with `DOTALL`), render the span, and continue
scanning after the closing delimiter; otherwise emit one character and move
on.  When `openP` matches but no closing delimiter follows, the span does not
match and scanning resumes one character later. -/
def subLazySpansAux (openP closeP : List Char) (render : List Char → List Char) :
    Nat → List Char → List Char
  | 0, cs => cs
  | _ + 1, [] => []
  | fuel + 1, c :: rest =>
    if openP.isPrefixOf (c :: rest) then
      match (c :: rest).drop openP.length with
      | [] => c :: subLazySpansAux openP closeP render fuel rest
      | a :: after1 =>
        match splitFirst closeP after1 with
        | none => c :: subLazySpansAux openP closeP render fuel rest
        | some (pre, post) => render (a :: pre) ++ subLazySpansAux openP closeP render fuel post
    else c :: subLazySpansAux openP closeP render fuel rest

/-- Left-to-right, non-overlapping substitution of lazy delimited spans, the
semantics of `re.sub` with pattern `openP (.+?) closeP` under `DOTALL`. -/
def subLazySpans (openP closeP : List Char) (render : List Char → List Char)
    (cs : List Char) : List Char :=
  subLazySpansAux openP closeP render (cs.length + 1) cs

/-- `replace_block` of `_convert_latex_math_delimiters_in_plain_markdown`:
the content is stripped of leading and trailing newlines (`strip("\n")`) and
put on its own line between `$$` lines. -/
def renderBlockMath (content : List Char) : List Char :=
  "$$\n".data ++ stripNewlineEnds content ++ "\n$$".data

/-- `replace_inline`: the content is stripped of whitespace and wrapped in
single dollars. -/
def renderInlineMath (content : List Char) : List Char :=
  "$".data ++ pyStripChars content ++ "$".data

/-- `_convert_latex_math_delimiters_in_plain_markdown` on character lists:
first the block pattern `\[(.+?)\]`, then the inline pattern `\((.+?)\)`. -/
def convertMathDelimitersInPlainChars (cs : List Char) : List Char :=
  subLazySpans "\\(".data "\\)".data renderInlineMath
    (subLazySpans "\\[".data "\\]".data renderBlockMath cs)

/-- `_convert_latex_math_delimiters_in_plain_markdown`. -/
def convert_latex_math_delimiters_in_plain_markdown (s : String) : String :=
  String.mk (convertMathDelimitersInPlainChars s.data)

/-- `str.splitlines(keepends=True)` for newline-terminated lines. -/
def splitLinesKeepEnds : List Char → List (List Char)
  | [] => []
  | c :: rest =>
    if c == '\n' then [c] :: splitLinesKeepEnds rest
    else
      match splitLinesKeepEnds rest with
      | [] => [[c]]
      | l :: ls => (c :: l) :: ls

/-- The backtick character. -/
def backtickChar : Char := Char.ofNat 96

/-- `_FENCE_START_PATTERN.match(line)` for the regex
`^(\s*)(x{3,}|~{3,})` with `x` the backtick: returns the leading-whitespace
group and the maximal fence-marker run, or `none` when the line does not
match. -/
def fenceStartMatch (line : List Char) : Option (List Char × List Char) :=
  let indent := line.takeWhile isPyWhitespace
  let rest := line.dropWhile isPyWhitespace
  match rest.head? with
  | none => none
  | some c =>
    if c == backtickChar || c == '~' then
      let marker := rest.takeWhile (fun d => d == c)
      if 3 ≤ marker.length then some (indent, marker) else none
    else none

/-- Loop state of `_convert_latex_math_delimiters_to_dollar`:
`converted_chunks`, `current_non_code_chunk`, `is_inside_fenced_code_block`,
`fence_marker`. -/
structure FenceScanState where
  converted : List (List Char)
  current : List (List Char)
  inside : Bool
  marker : Option (List Char)
deriving DecidableEq, Repr

/-- `flush_non_code_chunk`: convert and append the joined pending chunk. -/
def flushNonCodeChunk (st : FenceScanState) : FenceScanState :=
  if st.current.isEmpty then st
  else
    { st with
      converted := st.converted ++ [convertMathDelimitersInPlainChars st.current.flatten]
      current := [] }

/-- One iteration of the line loop of
`_convert_latex_math_delimiters_to_dollar`. -/
def fenceStep (st : FenceScanState) (line : List Char) : FenceScanState :=
  match fenceStartMatch line with
  | none =>
    if st.inside then { st with converted := st.converted ++ [line] }
    else { st with current := st.current ++ [line] }
  | some (indent, marker) =>
    if pyStripChars indent ≠ [] then
      if st.inside then { st with converted := st.converted ++ [line] }
      else { st with current := st.current ++ [line] }
    else if st.inside = false then
      let st1 := flushNonCodeChunk st
      { st1 with
        inside := true
        marker := some marker
        converted := st1.converted ++ [line] }
    else
      match st.marker with
      | some fm =>
        if marker.head? == fm.head? then
          { st with inside := false, marker := none, converted := st.converted ++ [line] }
        else { st with converted := st.converted ++ [line] }
      | none => { st with converted := st.converted ++ [line] }

/-- `_convert_latex_math_delimiters_to_dollar`: apply the delimiter rewrite to
the text outside fenced code blocks, passing fence lines and fenced content
through unchanged. -/
def convert_latex_math_delimiters_to_dollar (markdown_text : String) : String :=
  let lines := splitLinesKeepEnds markdown_text.data
  let final := lines.foldl fenceStep { converted := [], current := [], inside := false, marker := none }
  String.mk (flushNonCodeChunk final).converted.flatten

/-- `MATH_DELIMITER_STYLE_LATEX` (config.py). -/
def MATH_DELIMITER_STYLE_LATEX : String := "latex"

/-- `MATH_DELIMITER_STYLE_DOLLAR` (config.py). -/
def MATH_DELIMITER_STYLE_DOLLAR : String := "dollar"

/-- `MarkdownPostProcessingSettings` (config.py). -/
structure MarkdownPostProcessingSettings where
  math_delimiter_style : String
deriving DecidableEq, Repr

/-- `_post_process_task_markdown`: the delimiter rewrite runs only in dollar
mode; any other configured style passes the text through unchanged. -/
def post_process_task_markdown (task_markdown : String)
    (settings : MarkdownPostProcessingSettings) : String :=
  if settings.math_delimiter_style ≠ MATH_DELIMITER_STYLE_DOLLAR then task_markdown
  else convert_latex_math_delimiters_to_dollar task_markdown

/-- `_render_task_header_lines`: one `##` header line identifying the source,
with a 1-based page marker for PDF pages that carry page metadata. -/
def renderTaskHeaderLines (task : QueueTask) : List String :=
  let sp := task.source_path
  match task.task_kind with
  | .image => [s!"## {sp}", ""]
  | .pdfPage =>
    match task.pdf_page_index, task.pdf_total_pages with
    | some idx, some tot =>
      let pageNumberHuman := idx + 1
      [s!"## {sp} (page {pageNumberHuman}/{tot})", ""]
    | some _, none => [s!"## {sp}", ""]
    | none, _ => [s!"## {sp}", ""]

/-- The lines one task contributes to the merged document: nothing when the
task has no artifact path, the artifact file is absent, or its content is
whitespace-only; otherwise the header block, the post-processed content, and
the separator, exactly as the loop body of `merge_tasks_into_single_markdown`
appends them.  `files` models the filesystem: `files p = some c` when the
file at path `p` exists with content `c`. -/
def taskSectionLines (task : QueueTask) (files : String → Option String)
    (settings : MarkdownPostProcessingSettings) : List String :=
  match task.output_markdown_path with
  | none => []
  | some p =>
    match files p with
    | none => []
    | some task_markdown =>
      if pyStripString task_markdown = "" then []
      else
        renderTaskHeaderLines task ++ [""] ++
          [post_process_task_markdown task_markdown settings] ++ ["", "---", ""]

/-- `merge_tasks_into_single_markdown`: the document title, the sections of
the surviving tasks in the order given, joined with newlines, right-stripped,
with exactly one trailing newline.  The returned string is the content written
to the destination file. -/
def merge_tasks_into_single_markdown (tasks_in_enqueue_order : List QueueTask)
    (files : String → Option String)
    (settings : MarkdownPostProcessingSettings) : String :=
  let merged_lines :=
    ["# OCR Output", ""] ++
      tasks_in_enqueue_order.flatMap (fun t => taskSectionLines t files settings)
  pyRStripString (String.intercalate "\n" merged_lines) ++ "\n"

/-! ## Processing loop of the `run` command (cli.py) -/

/-- The external per-task producer (`_process_task_to_markdown`): rendering
plus OCR plus the artifact write.  `Except.ok p` models a successful return of
the artifact path `p`; `Except.error e` models a raised exception whose string
rendering is `e`. -/
def TaskProducer : Type := QueueTask → Except String String

/-- The `while True` loop of `_run_run_command`, driven by explicit fuel.
Each iteration fetches the smallest-id pending task, marks it running, runs
the producer, and marks the task completed or failed.  The result is the
final store together with `some id` when fail-fast aborted (re-raised) at
task `id`, or `none` when the loop stopped because no pending task was left
(or the fuel ran out). -/
def runLoop (producer : TaskProducer) (fail_fast : Bool) :
    Nat → Store → Store × Option Nat
  | 0, s => (s, none)
  | fuel + 1, s =>
    match fetch_next_pending_task s with
    | none => (s, none)
    | some next_task =>
      let sRunning := mark_task_running s next_task.task_id
      match producer next_task with
      | .ok task_markdown_path =>
        runLoop producer fail_fast fuel
          (mark_task_completed sRunning next_task.task_id task_markdown_path)
      | .error e =>
        let sFailed := mark_task_failed sRunning next_task.task_id e
        if fail_fast then (sFailed, some next_task.task_id)
        else runLoop producer fail_fast fuel sFailed

/-! ## Lemmas about sorting and fetching -/

theorem mem_insertByTaskId {x t : QueueTask} {l : List QueueTask} :
    x ∈ insertByTaskId t l ↔ x = t ∨ x ∈ l := by
  induction l with
  | nil => simp [insertByTaskId]
  | cons u us ih =>
    simp only [insertByTaskId]
    by_cases h : t.task_id ≤ u.task_id
    · simp [h]
    · simp only [h, if_false, List.mem_cons, ih]
      tauto

theorem sortByTaskId_eq_nil_iff {l : List QueueTask} :
    sortByTaskId l = [] ↔ l = [] := by
  cases l with
  | nil => simp [sortByTaskId]
  | cons t ts =>
    simp only [sortByTaskId]
    constructor
    · intro h
      cases hs : insertByTaskId t (sortByTaskId ts) with
      | nil =>
        exfalso
        have : t ∈ ([] : List QueueTask) := by
          rw [← hs]
          exact mem_insertByTaskId.mpr (Or.inl rfl)
        simp at this
      | cons a as => rw [hs] at h; exact absurd h (by simp)
    · intro h
      exact absurd h (by simp)

theorem sortByTaskId_head_min {l : List QueueTask} {m : QueueTask} {rest : List QueueTask}
    (h : sortByTaskId l = m :: rest) :
    m ∈ l ∧ ∀ x ∈ l, m.task_id ≤ x.task_id := by
  induction l generalizing m rest with
  | nil => simp [sortByTaskId] at h
  | cons t ts ih =>
    simp only [sortByTaskId] at h
    cases hs : sortByTaskId ts with
    | nil =>
      have hts : ts = [] := sortByTaskId_eq_nil_iff.mp hs
      rw [hs] at h
      simp only [insertByTaskId] at h
      cases h
      subst hts
      refine ⟨by simp, ?_⟩
      intro x hx
      simp at hx
      subst hx
      exact le_refl _
    | cons m' r' =>
      rw [hs] at h
      obtain ⟨hm', hmin'⟩ := ih hs
      simp only [insertByTaskId] at h
      by_cases hle : t.task_id ≤ m'.task_id
      · rw [if_pos hle] at h
        obtain ⟨rfl, -⟩ : m = t ∧ rest = m' :: r' := by
          constructor <;> [exact (List.cons_eq_cons.mp h).1.symm; exact (List.cons_eq_cons.mp h).2.symm]
        refine ⟨by simp, ?_⟩
        intro x hx
        rcases List.mem_cons.mp hx with rfl | hx
        · exact le_refl _
        · exact le_trans hle (hmin' x hx)
      · rw [if_neg hle] at h
        obtain ⟨rfl, -⟩ : m = m' ∧ rest = insertByTaskId t r' := by
          constructor <;> [exact (List.cons_eq_cons.mp h).1.symm; exact (List.cons_eq_cons.mp h).2.symm]
        refine ⟨List.mem_cons.mpr (Or.inr hm'), ?_⟩
        intro x hx
        rcases List.mem_cons.mp hx with rfl | hx
        · exact le_of_lt (lt_of_not_le hle)
        · exact hmin' x hx

/-- The contract of `fetch_next_pending_task` when it returns a task: the task
is a Pending row of the store with the smallest id among Pending rows. -/
theorem fetch_next_pending_some {s : Store} {t : QueueTask}
    (h : fetch_next_pending_task s = some t) :
    t ∈ s.rows ∧ t.status = .pending ∧
      ∀ u ∈ s.rows, u.status = .pending → t.task_id ≤ u.task_id := by
  unfold fetch_next_pending_task at h
  cases hs : sortByTaskId (s.rows.filter (fun r => decide (r.status = .pending))) with
  | nil => rw [hs] at h; simp at h
  | cons m rest =>
    rw [hs] at h
    simp only [List.head?] at h
    cases h
    obtain ⟨hm, hmin⟩ := sortByTaskId_head_min hs
    have hm' := List.mem_filter.mp hm
    refine ⟨hm'.1, by simpa using hm'.2, ?_⟩
    intro u hu hup
    exact hmin u (List.mem_filter.mpr ⟨hu, by simpa using hup⟩)

/-- `fetch_next_pending_task` returns none exactly when no Pending row
exists. -/
theorem fetch_next_pending_none {s : Store} :
    fetch_next_pending_task s = none ↔ ∀ u ∈ s.rows, u.status ≠ .pending := by
  unfold fetch_next_pending_task
  rw [List.head?_eq_none_iff, sortByTaskId_eq_nil_iff, List.filter_eq_nil_iff]
  constructor
  · intro h u hu
    intro hp
    exact h u hu (by simpa using hp)
  · intro h u hu
    simpa using h u hu

/-! ## Lemmas about row updates -/

theorem mem_updateRowsById {upd : QueueTask → QueueTask} {id : Nat}
    {rows : List QueueTask} {r' : QueueTask} :
    r' ∈ updateRowsById upd id rows ↔
      ∃ r ∈ rows, r' = if r.task_id = id then upd r else r := by
  simp only [updateRowsById, List.mem_map]
  constructor
  · rintro ⟨r, hr, rfl⟩; exact ⟨r, hr, rfl⟩
  · rintro ⟨r, hr, rfl⟩; exact ⟨r, hr, rfl⟩

theorem mem_updateRowsById_of_ne {upd : QueueTask → QueueTask} {id : Nat}
    {rows : List QueueTask} {r' : QueueTask}
    (hupd : ∀ r, (upd r).task_id = r.task_id)
    (h : r' ∈ updateRowsById upd id rows) (hne : r'.task_id ≠ id) :
    r' ∈ rows := by
  obtain ⟨r, hr, rfl⟩ := mem_updateRowsById.mp h
  by_cases hid : r.task_id = id
  · rw [if_pos hid] at hne ⊢
    exact absurd (by rw [hupd r, hid]) hne
  · rwa [if_neg hid]

theorem updateRowsById_mem_of_ne {upd : QueueTask → QueueTask} {id : Nat}
    {rows : List QueueTask} {r : QueueTask}
    (hr : r ∈ rows) (hne : r.task_id ≠ id) :
    r ∈ updateRowsById upd id rows := by
  rw [mem_updateRowsById]
  exact ⟨r, hr, by rw [if_neg hne]⟩

/-! ## Retirement of a task id: once a task reaches a terminal state, no later
queue operation can make its id Pending again, because no operation resets a
status to Pending and `AUTOINCREMENT` never hands the id out again. -/

/-- `IdRetired s i`: no row with id `i` is Pending, and the id counter is past
`i`, so no future insert can create a row with id `i`. -/
def IdRetired (s : Store) (i : Nat) : Prop :=
  (∀ r ∈ s.rows, r.task_id = i → r.status ≠ .pending) ∧ i < s.next_id

theorem enqueueImageRows_id_ge {id : Nat} {paths : List String} {ts : Int}
    {r : QueueTask} (h : r ∈ enqueueImageRows id paths ts) :
    id ≤ r.task_id := by
  induction paths generalizing id with
  | nil => simp [enqueueImageRows] at h
  | cons p ps ih =>
    simp only [enqueueImageRows, List.mem_cons] at h
    rcases h with rfl | h
    · exact le_refl _
    · exact le_trans (Nat.le_succ id) (ih h)

theorem idRetired_applyOp {s : Store} {i : Nat} (h : IdRetired s i)
    (op : QueueOp) : IdRetired (applyOp s op) i := by
  obtain ⟨hrows, hlt⟩ := h
  cases op with
  | enqueueImages ps ts =>
    constructor
    · intro r hr hid
      simp only [applyOp, enqueue_image_tasks, List.mem_append] at hr
      rcases hr with hr | hr
      · exact hrows r hr hid
      · have := enqueueImageRows_id_ge hr
        omega
    · simp only [applyOp, enqueue_image_tasks]
      omega
  | enqueuePdfPages p total ts =>
    constructor
    · intro r hr hid
      simp only [applyOp, enqueue_pdf_page_tasks] at hr
      by_cases htot : total ≤ 0
      · rw [if_pos htot] at hr
        exact hrows r hr hid
      · rw [if_neg htot] at hr
        simp only [List.mem_append, List.mem_map, List.mem_range] at hr
        rcases hr with hr | ⟨k, -, rfl⟩
        · exact hrows r hr hid
        · simp only [mkPdfPageRow] at hid
          omega
    · simp only [applyOp, enqueue_pdf_page_tasks]
      by_cases htot : total ≤ 0
      · rw [if_pos htot]; exact hlt
      · rw [if_neg htot]; simpa using Nat.lt_of_lt_of_le hlt (Nat.le_add_right _ _)
  | markRunning id =>
    refine ⟨?_, hlt⟩
    intro r hr hid
    obtain ⟨r0, hr0, rfl⟩ := mem_updateRowsById.mp hr
    by_cases h0 : r0.task_id = id <;> simp_all
  | markCompleted id p =>
    refine ⟨?_, hlt⟩
    intro r hr hid
    obtain ⟨r0, hr0, rfl⟩ := mem_updateRowsById.mp hr
    by_cases h0 : r0.task_id = id <;> simp_all
  | markFailed id e =>
    refine ⟨?_, hlt⟩
    intro r hr hid
    obtain ⟨r0, hr0, rfl⟩ := mem_updateRowsById.mp hr
    by_cases h0 : r0.task_id = id <;> simp_all
  | deleteAll =>
    exact ⟨by simp [applyOp, delete_all_tasks], hlt⟩

theorem idRetired_applyOps {s : Store} {i : Nat} (h : IdRetired s i)
    (ops : List QueueOp) : IdRetired (applyOps s ops) i := by
  induction ops generalizing s with
  | nil => exact h
  | cons op ops ih => exact ih (idRetired_applyOp h op)

theorem idRetired_mark_completed {s : Store} {i : Nat} (p : String)
    (hlt : i < s.next_id) :
    IdRetired (mark_task_completed (mark_task_running s i) i p) i := by
  refine ⟨?_, hlt⟩
  intro r hr hid
  obtain ⟨r1, hr1, rfl⟩ := mem_updateRowsById.mp hr
  by_cases h1 : r1.task_id = i <;> simp_all

theorem idRetired_mark_failed {s : Store} {i : Nat} (e : String)
    (hlt : i < s.next_id) :
    IdRetired (mark_task_failed (mark_task_running s i) i e) i := by
  refine ⟨?_, hlt⟩
  intro r hr hid
  obtain ⟨r1, hr1, rfl⟩ := mem_updateRowsById.mp hr
  by_cases h1 : r1.task_id = i <;> simp_all

/-- Claim C1: for every store, `fetch_next_pending_task` returns a Pending row
with the smallest id among Pending rows, or `none` exactly when no Pending row
exists; and once the returned task has been marked running and then completed
(or failed), no later `fetch_next_pending_task` call — after any further
sequence of queue operations — ever returns a task with that id again. -/
theorem fetch_next_pending_contract (s : Store) (hwf : StoreWF s) :
    (∀ t, fetch_next_pending_task s = some t →
       t ∈ s.rows ∧ t.status = .pending ∧
         ∀ u ∈ s.rows, u.status = .pending → t.task_id ≤ u.task_id) ∧
    (fetch_next_pending_task s = none ↔ ∀ u ∈ s.rows, u.status ≠ .pending) ∧
    (∀ t, fetch_next_pending_task s = some t →
       ∀ (p : String) (ops : List QueueOp) (u : QueueTask),
         fetch_next_pending_task
             (applyOps (mark_task_completed (mark_task_running s t.task_id) t.task_id p) ops) =
           some u →
         u.task_id ≠ t.task_id) ∧
    (∀ t, fetch_next_pending_task s = some t →
       ∀ (e : String) (ops : List QueueOp) (u : QueueTask),
         fetch_next_pending_task
             (applyOps (mark_task_failed (mark_task_running s t.task_id) t.task_id e) ops) =
           some u →
         u.task_id ≠ t.task_id) := by
  refine ⟨fun t ht => fetch_next_pending_some ht, fetch_next_pending_none, ?_, ?_⟩
  · intro t ht p ops u hu hid
    obtain ⟨htmem, -, -⟩ := fetch_next_pending_some ht
    have hret : IdRetired (applyOps (mark_task_completed (mark_task_running s t.task_id) t.task_id p) ops) t.task_id :=
      idRetired_applyOps (idRetired_mark_completed p (hwf.2 t htmem)) ops
    obtain ⟨humem, hup, -⟩ := fetch_next_pending_some hu
    exact hret.1 u humem hid hup
  · intro t ht e ops u hu hid
    obtain ⟨htmem, -, -⟩ := fetch_next_pending_some ht
    have hret : IdRetired (applyOps (mark_task_failed (mark_task_running s t.task_id) t.task_id e) ops) t.task_id :=
      idRetired_applyOps (idRetired_mark_failed e (hwf.2 t htmem)) ops
    obtain ⟨humem, hup, -⟩ := fetch_next_pending_some hu
    exact hret.1 u humem hid hup

/-- A concrete two-task store used by the witnesses. -/
def exampleStoreC1 : Store :=
  { rows := [mkImageRow 1 "a.png" 0, mkImageRow 2 "b.png" 0], next_id := 3 }

theorem fetch_next_pending_contract_witness :
    StoreWF exampleStoreC1 ∧
      (mkImageRow 2 "b.png" 0).task_id ≠ (mkImageRow 1 "a.png" 0).task_id := by
  have hwf : StoreWF exampleStoreC1 := by
    constructor
    · simp [exampleStoreC1, List.pairwise_cons, mkImageRow]
    · intro r hr
      simp only [exampleStoreC1, List.mem_cons] at hr
      rcases hr with rfl | rfl | h
      · decide
      · decide
      · simp at h
  refine ⟨hwf, ?_⟩
  exact (fetch_next_pending_contract exampleStoreC1 hwf).2.2.1
    (mkImageRow 1 "a.png" 0) (by decide) "p.md" [] (mkImageRow 2 "b.png" 0) (by decide)

theorem updateRowsById_id_eq_self {upd : QueueTask → QueueTask} {id : Nat}
    {rows : List QueueTask} (h : ∀ r ∈ rows, r.task_id ≠ id) :
    updateRowsById upd id rows = rows := by
  unfold updateRowsById
  induction rows with
  | nil => rfl
  | cons r rs ih =>
    simp only [List.map_cons]
    rw [if_neg (h r (by simp)), ih (fun x hx => h x (by simp [hx]))]

/-- Claim C10: marking a task id that has no row in the store is a no-op: the
update matches zero rows and the store is returned unchanged, for all three
status-transition operations. -/
theorem mark_unknown_id_noop (s : Store) (i : Nat) (p e : String)
    (h : ∀ r ∈ s.rows, r.task_id ≠ i) :
    mark_task_running s i = s ∧ mark_task_completed s i p = s ∧
      mark_task_failed s i e = s := by
  refine ⟨?_, ?_, ?_⟩ <;>
    simp only [mark_task_running, mark_task_completed, mark_task_failed,
      updateRowsById_id_eq_self h]

theorem mark_unknown_id_noop_witness :
    (∀ r ∈ exampleStoreC1.rows, r.task_id ≠ 7) ∧
      (mark_task_running exampleStoreC1 7 = exampleStoreC1 ∧
        mark_task_completed exampleStoreC1 7 "p.md" = exampleStoreC1 ∧
        mark_task_failed exampleStoreC1 7 "err" = exampleStoreC1) :=
  ⟨by decide, mark_unknown_id_noop exampleStoreC1 7 "p.md" "err" (by decide)⟩

theorem mkPdfPageRow_task_id (id : Nat) (path : String) (k : Nat) (total ts : Int) :
    (mkPdfPageRow id path k total ts).task_id = id := rfl

/-- Claim C4: `enqueue_pdf_page_tasks` with `total_pages ≤ 0` inserts nothing
and returns 0 without failing; with `total_pages = n > 0` it appends exactly
`n` new rows, all Pending PdfPage rows for the given source path with the
same `created_at` and total page count, whose page indices are `0..n-1` in
order, and returns `n`. -/
theorem enqueue_pdf_page_tasks_spec (s : Store) (path : String) (total ts : Int) :
    (total ≤ 0 → enqueue_pdf_page_tasks s path total ts = (s, 0)) ∧
    (0 < total →
      (enqueue_pdf_page_tasks s path total ts).2 = total.toNat ∧
      ∃ news : List QueueTask,
        (enqueue_pdf_page_tasks s path total ts).1.rows = s.rows ++ news ∧
        news.length = total.toNat ∧
        news.map (fun r => r.pdf_page_index) =
          (List.range total.toNat).map (fun k => some (Int.ofNat k)) ∧
        ∀ r ∈ news,
          r.status = .pending ∧ r.task_kind = .pdfPage ∧ r.source_path = path ∧
            r.created_unix_timestamp_seconds = ts ∧ r.pdf_total_pages = some total) := by
  constructor
  · intro h
    simp [enqueue_pdf_page_tasks, h]
  · intro h
    have hneg : ¬ total ≤ 0 := by omega
    refine ⟨by simp [enqueue_pdf_page_tasks, hneg], ?_⟩
    refine ⟨(List.range total.toNat).map (fun k => mkPdfPageRow (s.next_id + k) path k total ts),
      by simp [enqueue_pdf_page_tasks, hneg], by simp, ?_, ?_⟩
    · simp [List.map_map, mkPdfPageRow, Function.comp]
    · intro r hr
      simp only [List.mem_map, List.mem_range] at hr
      obtain ⟨k, -, rfl⟩ := hr
      exact ⟨rfl, rfl, rfl, rfl, rfl⟩

theorem enqueue_pdf_page_tasks_spec_witness :
    ((-1 : Int) ≤ 0 ∧ enqueue_pdf_page_tasks emptyStore "b.pdf" (-1) 5 = (emptyStore, 0)) ∧
      (0 < (2 : Int) ∧ (enqueue_pdf_page_tasks emptyStore "b.pdf" 2 5).2 = (2 : Int).toNat) :=
  ⟨⟨by decide, (enqueue_pdf_page_tasks_spec emptyStore "b.pdf" (-1) 5).1 (by decide)⟩,
   ⟨by decide, ((enqueue_pdf_page_tasks_spec emptyStore "b.pdf" 2 5).2 (by decide)).1⟩⟩

/-! ## Status/field invariant (claim C3) -/

/-- The operation sequence refuting full output/error mutual exclusivity:
complete a task, then fail the same task.  `mark_task_failed` does not clear
`output_markdown_path`, so the Failed row keeps its stale output path. -/
def opsOutputStale : List QueueOp :=
  [.enqueueImages ["a.png"] 0, .markCompleted 1 "p.md", .markFailed 1 "boom"]

/-- Counterexample to claim C3 as stated: after `mark_task_completed 1` then
`mark_task_failed 1`, the row has `status = failed` but a non-null
`output_markdown_path`, so "output_path is non-null iff status = Completed"
does not hold for every sequence of queue operations. -/
theorem status_exclusivity_counterexample :
    ¬ ∀ r ∈ (applyOps emptyStore opsOutputStale).rows,
        ((r.output_markdown_path ≠ none ↔ r.status = .completed) ∧
          (r.error_message ≠ none ↔ r.status = .failed)) := by
  decide

/-- The per-row invariant that does hold for every reachable store. -/
def RowStatusInv (r : QueueTask) : Prop :=
  (r.status = .pending → r.output_markdown_path = none ∧ r.error_message = none) ∧
  (r.status = .completed → r.output_markdown_path ≠ none ∧ r.error_message = none) ∧
  (r.status = .failed → r.error_message ≠ none)

theorem rowStatusInv_enqueueImageRows {id : Nat} {paths : List String} {ts : Int}
    {r : QueueTask} (h : r ∈ enqueueImageRows id paths ts) : RowStatusInv r := by
  induction paths generalizing id with
  | nil => simp [enqueueImageRows] at h
  | cons p ps ih =>
    simp only [enqueueImageRows, List.mem_cons] at h
    rcases h with rfl | h
    · simp [RowStatusInv, mkImageRow]
    · exact ih h

theorem rowStatusInv_applyOp {s : Store} (hs : ∀ r ∈ s.rows, RowStatusInv r)
    (op : QueueOp) : ∀ r ∈ (applyOp s op).rows, RowStatusInv r := by
  cases op with
  | enqueueImages ps ts =>
    intro r hr
    simp only [applyOp, enqueue_image_tasks, List.mem_append] at hr
    rcases hr with hr | hr
    · exact hs r hr
    · exact rowStatusInv_enqueueImageRows hr
  | enqueuePdfPages p total ts =>
    intro r hr
    simp only [applyOp, enqueue_pdf_page_tasks] at hr
    by_cases htot : total ≤ 0
    · rw [if_pos htot] at hr
      exact hs r hr
    · rw [if_neg htot] at hr
      simp only [List.mem_append, List.mem_map, List.mem_range] at hr
      rcases hr with hr | ⟨k, -, rfl⟩
      · exact hs r hr
      · simp [RowStatusInv, mkPdfPageRow]
  | markRunning id =>
    intro r hr
    obtain ⟨r0, hr0, rfl⟩ := mem_updateRowsById.mp hr
    by_cases h0 : r0.task_id = id
    · rw [if_pos h0]
      simp [RowStatusInv]
    · rw [if_neg h0]
      exact hs r0 hr0
  | markCompleted id p =>
    intro r hr
    obtain ⟨r0, hr0, rfl⟩ := mem_updateRowsById.mp hr
    by_cases h0 : r0.task_id = id
    · rw [if_pos h0]
      simp [RowStatusInv]
    · rw [if_neg h0]
      exact hs r0 hr0
  | markFailed id e =>
    intro r hr
    obtain ⟨r0, hr0, rfl⟩ := mem_updateRowsById.mp hr
    by_cases h0 : r0.task_id = id
    · rw [if_pos h0]
      simp [RowStatusInv]
    · rw [if_neg h0]
      exact hs r0 hr0
  | deleteAll =>
    intro r hr
    simp [applyOp, delete_all_tasks] at hr

/-- Claim C3 as amended: in every store reachable by a sequence of queue
operations, a Completed row has a non-null output path and a null error, a
Pending row has both fields null, and a Failed row has a non-null error; but
`mark_task_failed` does not clear `output_markdown_path`, so a Failed row's
output path is not constrained (it survives from an earlier completion). -/
theorem status_fields_invariant (ops : List QueueOp) (r : QueueTask)
    (hr : r ∈ (applyOps emptyStore ops).rows) :
    (r.status = .pending → r.output_markdown_path = none ∧ r.error_message = none) ∧
    (r.status = .completed → r.output_markdown_path ≠ none ∧ r.error_message = none) ∧
    (r.status = .failed → r.error_message ≠ none) := by
  suffices h : ∀ r ∈ (applyOps emptyStore ops).rows, RowStatusInv r from h r hr
  have hbase : ∀ r ∈ emptyStore.rows, RowStatusInv r := by simp [emptyStore]
  clear hr
  induction ops using List.reverseRecOn with
  | nil => exact hbase
  | append_singleton ops op ih =>
    intro r hr
    rw [applyOps, List.foldl_append] at hr
    exact rowStatusInv_applyOp ih op r hr

theorem status_fields_invariant_witness :
    mkImageRow 1 "a.png" 0 ∈ (applyOps emptyStore [.enqueueImages ["a.png"] 0]).rows ∧
      (((mkImageRow 1 "a.png" 0).status = .pending →
          (mkImageRow 1 "a.png" 0).output_markdown_path = none ∧
            (mkImageRow 1 "a.png" 0).error_message = none) ∧
        ((mkImageRow 1 "a.png" 0).status = .completed →
          (mkImageRow 1 "a.png" 0).output_markdown_path ≠ none ∧
            (mkImageRow 1 "a.png" 0).error_message = none) ∧
        ((mkImageRow 1 "a.png" 0).status = .failed →
          (mkImageRow 1 "a.png" 0).error_message ≠ none)) :=
  ⟨by decide,
   status_fields_invariant [.enqueueImages ["a.png"] 0] (mkImageRow 1 "a.png" 0) (by decide)⟩

/-! ## Merge ordering (claim C2) and skip rule (claim C6) -/

theorem sortByTaskId_eq_self {l : List QueueTask}
    (h : l.Pairwise (fun a b => a.task_id < b.task_id)) : sortByTaskId l = l := by
  induction l with
  | nil => rfl
  | cons t ts ih =>
    rw [List.pairwise_cons] at h
    simp only [sortByTaskId]
    rw [ih h.2]
    cases ts with
    | nil => rfl
    | cons u us =>
      simp only [insertByTaskId]
      rw [if_pos (le_of_lt (h.1 u (by simp)))]

theorem flatMap_filter_ne_nil {α β : Type} (f : α → List β) (l : List α) :
    l.flatMap f = (l.filter (fun x => !(f x).isEmpty)).flatMap f := by
  induction l with
  | nil => rfl
  | cons x xs ih =>
    by_cases h : (f x).isEmpty
    · have hx : f x = [] := by simpa using h
      simp [List.filter_cons, h, hx, ih]
    · simp [List.filter_cons, h]
      exact ih

/-- Claim C2: the merged document's sections appear in strictly ascending
task-id order — the permanent enqueue order — independent of the order in
which tasks were completed: the contributing tasks (those with a usable
artifact) of `fetch_tasks_in_enqueue_order` are pairwise id-ascending, and the
merged document is exactly the title followed by those tasks' sections in that
order. -/
theorem merge_sections_in_enqueue_order (s : Store) (files : String → Option String)
    (settings : MarkdownPostProcessingSettings) (hwf : StoreWF s) :
    ((fetch_tasks_in_enqueue_order s).filter
        (fun t => !(taskSectionLines t files settings).isEmpty)).Pairwise
      (fun a b => a.task_id < b.task_id) ∧
    merge_tasks_into_single_markdown (fetch_tasks_in_enqueue_order s) files settings =
      pyRStripString (String.intercalate "\n"
        (["# OCR Output", ""] ++
          ((fetch_tasks_in_enqueue_order s).filter
              (fun t => !(taskSectionLines t files settings).isEmpty)).flatMap
            (fun t => taskSectionLines t files settings))) ++ "\n" := by
  constructor
  · rw [fetch_tasks_in_enqueue_order, sortByTaskId_eq_self hwf.1]
    exact List.Pairwise.filter _ hwf.1
  · rw [merge_tasks_into_single_markdown, ← flatMap_filter_ne_nil]

/-- A store whose tasks completed out of enqueue order: task 3 completed
before task 1, task 2 is still pending. -/
def exampleStoreC2 : Store :=
  { rows :=
      [{ mkImageRow 1 "a.png" 0 with status := .completed, output_markdown_path := some "p1.md" },
       mkImageRow 2 "b.png" 0,
       { mkImageRow 3 "c.png" 0 with status := .completed, output_markdown_path := some "p3.md" }]
    next_id := 4 }

/-- A concrete filesystem for the merge witnesses. -/
def exampleFiles : String → Option String := fun p =>
  if p = "p1.md" then some "one" else if p = "p3.md" then some "three" else none

theorem merge_sections_in_enqueue_order_witness :
    StoreWF exampleStoreC2 ∧
      ((fetch_tasks_in_enqueue_order exampleStoreC2).filter
          (fun t => !(taskSectionLines t exampleFiles ⟨"dollar"⟩).isEmpty)).Pairwise
        (fun a b => a.task_id < b.task_id) := by
  have hwf : StoreWF exampleStoreC2 := by constructor <;> decide
  exact ⟨hwf, (merge_sections_in_enqueue_order exampleStoreC2 exampleFiles ⟨"dollar"⟩ hwf).1⟩

/-- Claim C6: a task with no output artifact path, or whose artifact file is
absent, or whose artifact content is whitespace-only, contributes nothing to
the merged document: its section lines are empty and the merge of any task
list with and without it produces the same document. -/
theorem skipped_task_contributes_nothing (t : QueueTask)
    (files : String → Option String) (settings : MarkdownPostProcessingSettings)
    (h : t.output_markdown_path = none ∨
      ∃ p, t.output_markdown_path = some p ∧
        (files p = none ∨ ∃ c, files p = some c ∧ pyStripString c = "")) :
    taskSectionLines t files settings = [] ∧
    ∀ pre post : List QueueTask,
      merge_tasks_into_single_markdown (pre ++ t :: post) files settings =
        merge_tasks_into_single_markdown (pre ++ post) files settings := by
  have hnil : taskSectionLines t files settings = [] := by
    rcases h with h | ⟨p, hp, h⟩
    · simp [taskSectionLines, h]
    · rcases h with h | ⟨c, hc, hcs⟩
      · simp [taskSectionLines, hp, h]
      · simp [taskSectionLines, hp, hc, hcs]
  refine ⟨hnil, ?_⟩
  intro pre post
  simp [merge_tasks_into_single_markdown, hnil]

theorem skipped_task_contributes_nothing_witness :
    (mkImageRow 1 "a.png" 0).output_markdown_path = none ∧
      taskSectionLines (mkImageRow 1 "a.png" 0) (fun _ => none) ⟨"dollar"⟩ = [] :=
  ⟨rfl,
   (skipped_task_contributes_nothing (mkImageRow 1 "a.png" 0) (fun _ => none) ⟨"dollar"⟩
     (Or.inl rfl)).1⟩

/-! ## Fail-fast abort of the processing loop (claim C5) -/

theorem mark_failed_running_status_at {s : Store} {i : Nat} {e : String} {r : QueueTask}
    (hr : r ∈ (mark_task_failed (mark_task_running s i) i e).rows)
    (hid : r.task_id = i) : r.status = .failed := by
  simp only [mark_task_failed, mark_task_running] at hr
  obtain ⟨r1, hr1, rfl⟩ := mem_updateRowsById.mp hr
  by_cases h1 : r1.task_id = i <;> simp_all

theorem mark_completed_running_status_at {s : Store} {i : Nat} {p : String} {r : QueueTask}
    (hr : r ∈ (mark_task_completed (mark_task_running s i) i p).rows)
    (hid : r.task_id = i) : r.status = .completed := by
  simp only [mark_task_completed, mark_task_running] at hr
  obtain ⟨r1, hr1, rfl⟩ := mem_updateRowsById.mp hr
  by_cases h1 : r1.task_id = i <;> simp_all

theorem mem_mark_failed_running_of_ne {s : Store} {i : Nat} {e : String} {r : QueueTask}
    (hr : r ∈ (mark_task_failed (mark_task_running s i) i e).rows)
    (hne : r.task_id ≠ i) : r ∈ s.rows := by
  simp only [mark_task_failed, mark_task_running] at hr
  obtain ⟨r1, hr1, rfl⟩ := mem_updateRowsById.mp hr
  obtain ⟨r0, hr0, rfl⟩ := mem_updateRowsById.mp hr1
  by_cases h0 : r0.task_id = i <;> simp_all

theorem mem_mark_completed_running_of_ne {s : Store} {i : Nat} {p : String} {r : QueueTask}
    (hr : r ∈ (mark_task_completed (mark_task_running s i) i p).rows)
    (hne : r.task_id ≠ i) : r ∈ s.rows := by
  simp only [mark_task_completed, mark_task_running] at hr
  obtain ⟨r1, hr1, rfl⟩ := mem_updateRowsById.mp hr
  obtain ⟨r0, hr0, rfl⟩ := mem_updateRowsById.mp hr1
  by_cases h0 : r0.task_id = i <;> simp_all

/-- Claim C5: in fail-fast mode, when the loop aborts (re-raises) it does so
at a task `i` that was Pending when the loop started; the aborting task is
recorded as Failed in the final store; and every row with an id greater than
`i` is left exactly as it was when the loop started — in particular no
Pending task after the failing one is ever marked Running. -/
theorem runLoop_failfast_abort_spec (producer : TaskProducer) (fuel : Nat)
    (s s' : Store) (i : Nat)
    (h : runLoop producer true fuel s = (s', some i)) :
    (∃ r ∈ s.rows, r.task_id = i ∧ r.status = .pending) ∧
    (∀ r ∈ s'.rows, r.task_id = i → r.status = .failed) ∧
    (∀ r ∈ s'.rows, i < r.task_id → r ∈ s.rows) := by
  induction fuel generalizing s with
  | zero => simp [runLoop] at h
  | succ fuel ih =>
    rw [runLoop] at h
    cases hf : fetch_next_pending_task s with
    | none => rw [hf] at h; simp at h
    | some t =>
      rw [hf] at h
      dsimp only at h
      cases hp : producer t with
      | error e =>
        rw [hp] at h
        dsimp only [if_true] at h
        obtain ⟨hs', hi⟩ := Prod.mk.injEq .. ▸ h
        obtain rfl : i = t.task_id := by injection hi.symm
        subst hs'
        obtain ⟨htmem, htpend, -⟩ := fetch_next_pending_some hf
        refine ⟨⟨t, htmem, rfl, htpend⟩, ?_, ?_⟩
        · intro r hr hid
          exact mark_failed_running_status_at hr hid
        · intro r hr hlt
          exact mem_mark_failed_running_of_ne hr (by omega)
      | ok p =>
        rw [hp] at h
        obtain ⟨⟨r1, hr1mem, hr1id, hr1pend⟩, IH2, IH3⟩ := ih _ h
        obtain ⟨htmem, htpend, htmin⟩ := fetch_next_pending_some hf
        have hne : t.task_id ≠ i := by
          intro heq
          have : r1.status = .completed :=
            mark_completed_running_status_at hr1mem (by omega)
          simp [this] at hr1pend
        have hr1s : r1 ∈ s.rows := mem_mark_completed_running_of_ne hr1mem (by omega)
        have hlt : t.task_id < i := by
          have := htmin r1 hr1s hr1pend
          omega
        refine ⟨⟨r1, hr1s, hr1id, hr1pend⟩, IH2, ?_⟩
        intro r hr hri
        exact mem_mark_completed_running_of_ne (IH3 r hr hri) (by omega)

/-- A producer that always raises, for the fail-fast witness. -/
def alwaysFailProducer : TaskProducer := fun _ => .error "boom"

theorem runLoop_failfast_abort_spec_witness :
    runLoop alwaysFailProducer true 5 exampleStoreC1 =
      (mark_task_failed (mark_task_running exampleStoreC1 1) 1 "boom", some 1) ∧
      (∃ r ∈ exampleStoreC1.rows, r.task_id = 1 ∧ r.status = .pending) := by
  have h : runLoop alwaysFailProducer true 5 exampleStoreC1 =
      (mark_task_failed (mark_task_running exampleStoreC1 1) 1 "boom", some 1) := by decide
  exact ⟨h, (runLoop_failfast_abort_spec alwaysFailProducer 5 exampleStoreC1 _ 1 h).1⟩

/-! ## Concrete delimiter-transform properties (claims C7, C8, C9) -/

/-- Claim C7: in dollar mode the inline span in ordinary paragraph text is
rewritten to dollars with the content trimmed, while the identical text inside
a fenced code block opened by a line of three backticks passes through
verbatim. -/
theorem inline_math_rewrite_respects_backtick_fence :
    post_process_task_markdown "\\(x+y\\)\n" ⟨"dollar"⟩ = "$x+y$\n" ∧
    post_process_task_markdown "\\( x+y \\)\n" ⟨"dollar"⟩ = "$x+y$\n" ∧
    post_process_task_markdown "```\n\\(x+y\\)\n```\n" ⟨"dollar"⟩ =
      "```\n\\(x+y\\)\n```\n" := by
  refine ⟨by decide, by decide, by decide⟩

/-- Counterexample to claim C8 as stated: the block span with spaces inside
the delimiters does not produce the middle line `a \\ b`, because
`replace_block` strips only newlines from the content, not spaces. -/
theorem block_math_three_lines_counterexample :
    ¬ post_process_task_markdown "\\[ a \\\\ b \\]" ⟨"dollar"⟩ = "$$\na \\\\ b\n$$" := by
  decide

/-- Claim C8 as amended: in dollar mode, `\[ a \\ b \]` outside any fence
becomes exactly three lines — `$$`, then the content with only leading and
trailing newlines stripped (the surrounding spaces are preserved, so the
middle line is ` a \\ b `), then `$$`. -/
theorem block_math_three_lines_amended :
    post_process_task_markdown "\\[ a \\\\ b \\]" ⟨"dollar"⟩ = "$$\n a \\\\ b \n$$" := by
  decide

/-- Claim C9 evaluation at the failing input: a line of whitespace followed by
three backticks opens a real fence — the regex group `(\s*)` captures only
whitespace, so the source's `indent.strip() != ""` guard can never fire — and
the math span on the following line is therefore left unrewritten, while the
same span with no preceding fence-like line is rewritten.  The third conjunct
exhibits the dead guard: the stripped indent group of the failing line is
empty. -/
theorem indented_fence_opens_fence :
    post_process_task_markdown "  ```\n\\(x+y\\)\n" ⟨"dollar"⟩ = "  ```\n\\(x+y\\)\n" ∧
    post_process_task_markdown "\\(x+y\\)\n" ⟨"dollar"⟩ = "$x+y$\n" ∧
    pyStripChars ("  ```\n".data.takeWhile isPyWhitespace) = [] := by
  refine ⟨by decide, by decide, by decide⟩
